import Mathlib

/-!
Verification of the pyglpi client core (src/pyglpi/__init__.py) against its
natural-language specification.  The Python code is shallowly embedded:
Python values are modelled by the inductive `Val`, Python dicts by ordered
association lists (`PyDict`), and Python exceptions by `Except PyErr`.
-/

/-- Model of a Python (JSON-like) value.  In the modelled program all dict
keys are ints or strings, so the Python quirk that `True == 1` as dict keys
never arises; structural equality on `Val` coincides with Python `==` on all
reachable values. -/
inductive Val where
  | vnull
  | vbool (b : Bool)
  | vint (n : Int)
  | vstr (s : String)
  | vlist (xs : List Val)
  | vdict (ps : List (Val × Val))

mutual
/-- Structural equality test on `Val` (deriving is unavailable for this
nested inductive, so it is written by hand). -/
def Val.beq : Val → Val → Bool
  | .vnull, .vnull => true
  | .vbool a, .vbool b => a == b
  | .vint a, .vint b => a == b
  | .vstr a, .vstr b => a == b
  | .vlist xs, .vlist ys => beqL xs ys
  | .vdict ps, .vdict qs => beqP ps qs
  | _, _ => false
/-- Equality test on lists of `Val`. -/
def beqL : List Val → List Val → Bool
  | [], [] => true
  | x :: xs, y :: ys => Val.beq x y && beqL xs ys
  | _, _ => false
/-- Equality test on lists of pairs of `Val`. -/
def beqP : List (Val × Val) → List (Val × Val) → Bool
  | [], [] => true
  | (k, v) :: ps, (l, w) :: qs => Val.beq k l && Val.beq v w && beqP ps qs
  | _, _ => false
end

section
variable (P : Val → Prop) (QL : List Val → Prop) (QP : List (Val × Val) → Prop)
  (hnull : P .vnull) (hbool : ∀ b, P (.vbool b)) (hof : ∀ n, P (.vint n))
  (hstr : ∀ s, P (.vstr s)) (hlist : ∀ xs, QL xs → P (.vlist xs))
  (hdict : ∀ ps, QP ps → P (.vdict ps))
  (hLnil : QL []) (hLcons : ∀ x xs, P x → QL xs → QL (x :: xs))
  (hPnil : QP []) (hPcons : ∀ k v ps, P k → P v → QP ps → QP ((k, v) :: ps))

mutual
/-- Induction principle for `Val` threading predicates through the nested
lists. -/
def valInd : ∀ a, P a
  | .vnull => hnull
  | .vbool b => hbool b
  | .vint n => hof n
  | .vstr s => hstr s
  | .vlist xs => hlist xs (valIndL xs)
  | .vdict ps => hdict ps (valIndP ps)
/-- List part of `valInd`. -/
def valIndL : ∀ xs, QL xs
  | [] => hLnil
  | x :: xs => hLcons x xs (valInd x) (valIndL xs)
/-- Pair-list part of `valInd`. -/
def valIndP : ∀ ps, QP ps
  | [] => hPnil
  | (k, v) :: ps => hPcons k v ps (valInd k) (valInd v) (valIndP ps)
end
end

/-- Soundness of `Val.beq`. -/
theorem Val.eq_of_beq : ∀ a : Val, ∀ b, Val.beq a b = true → a = b :=
  valInd (fun a => ∀ b, Val.beq a b = true → a = b)
    (fun xs => ∀ ys, beqL xs ys = true → xs = ys)
    (fun ps => ∀ qs, beqP ps qs = true → ps = qs)
    (fun b h => by cases b <;> simp_all [Val.beq])
    (fun a b h => by cases b <;> simp_all [Val.beq])
    (fun n b h => by cases b <;> simp_all [Val.beq])
    (fun s b h => by cases b <;> simp_all [Val.beq])
    (fun xs ih b h => by
      cases b <;> simp_all [Val.beq]
      exact ih _ h)
    (fun ps ih b h => by
      cases b <;> simp_all [Val.beq]
      exact ih _ h)
    (fun ys h => by cases ys <;> simp_all [beqL])
    (fun x xs px ih ys h => by
      cases ys with
      | nil => simp [beqL] at h
      | cons y ys =>
        simp only [beqL, Bool.and_eq_true] at h
        rw [px y h.1, ih ys h.2])
    (fun qs h => by cases qs <;> simp_all [beqP])
    (fun k v ps pk pv ih qs h => by
      cases qs with
      | nil => simp [beqP] at h
      | cons q qs =>
        obtain ⟨l, w⟩ := q
        simp only [beqP, Bool.and_eq_true] at h
        rw [pk l h.1.1, pv w h.1.2, ih qs h.2])

/-- Reflexivity of `Val.beq`. -/
theorem Val.beq_refl : ∀ a : Val, Val.beq a a = true :=
  valInd (fun a => Val.beq a a = true) (fun xs => beqL xs xs = true)
    (fun ps => beqP ps ps = true)
    (by simp [Val.beq]) (by simp [Val.beq]) (by simp [Val.beq]) (by simp [Val.beq])
    (fun xs h => by simpa [Val.beq] using h)
    (fun ps h => by simpa [Val.beq] using h)
    (by simp [beqL])
    (fun x xs px ih => by simp [beqL, px, ih])
    (by simp [beqP])
    (fun k v ps pk pv ih => by simp [beqP, pk, pv, ih])

instance : DecidableEq Val := fun a b =>
  decidable_of_iff (Val.beq a b = true)
    ⟨Val.eq_of_beq a b, fun h => h ▸ Val.beq_refl a⟩

/-- An ordered association list modelling a Python dict (insertion order;
keys are unique whenever the dict is built through `dictSet` from `[]`). -/
abbrev PyDict := List (Val × Val)

/-- Python exceptions raised by the modelled code. -/
inductive PyErr where
  | keyError (k : Val)
  | typeError
  | attributeError
  | indexError
deriving DecidableEq

/-- Whether a value is hashable in Python (lists and dicts are not). -/
def hashable : Val → Bool
  | .vlist _ => false
  | .vdict _ => false
  | _ => true

/-- Lookup in a Python dict: value of the first (hence only) matching key. -/
def dLookup : PyDict → Val → Option Val
  | [], _ => none
  | (a, b) :: rest, k => if a = k then some b else dLookup rest k

/-- Python dict assignment `d[k] = v`: update in place if the key exists,
else append at the end (insertion order). -/
def dictSet : PyDict → Val → Val → PyDict
  | [], k, v => [(k, v)]
  | (a, b) :: rest, k, v =>
    if a = k then (k, v) :: rest else (a, b) :: dictSet rest k v

/-- Python dict assignment as a fallible operation: an unhashable key raises
`TypeError` before any mutation. -/
def dictSetE (d : PyDict) (k v : Val) : Except PyErr PyDict :=
  if hashable k then .ok (dictSet d k v) else .error .typeError

/-- Python subscription `c[k]`: dict lookup (`KeyError` when absent,
`TypeError` on an unhashable key), list indexing with negative-index support
(`TypeError` on a non-int index, `IndexError` out of range), string indexing
likewise; other values are not subscriptable (`TypeError`). -/
def getItem (c k : Val) : Except PyErr Val :=
  match c with
  | .vdict d =>
    if hashable k then
      match dLookup d k with
      | some v => .ok v
      | none => .error (.keyError k)
    else .error .typeError
  | .vlist xs =>
    match k with
    | .vint n =>
      let i : Int := if n < 0 then n + xs.length else n
      if 0 ≤ i then
        match xs.get? i.toNat with
        | some v => .ok v
        | none => .error .indexError
      else .error .indexError
    | _ => .error .typeError
  | .vstr s =>
    match k with
    | .vint n =>
      let i : Int := if n < 0 then n + s.length else n
      if 0 ≤ i then
        match s.data.get? i.toNat with
        | some c => .ok (.vstr (String.mk [c]))
        | none => .error .indexError
      else .error .indexError
    | _ => .error .typeError
  | _ => .error .typeError

/-- Index of the first character satisfying `p`, if any. -/
def findFirst (p : Char → Bool) : List Char → Option Nat
  | [] => none
  | a :: l => if p a then some 0 else (findFirst p l).map (· + 1)

/-- Python `s.split('.', 1)`: split at the first dot only; a string without
a dot yields the one-element list `[s]`. -/
def splitOnce (s : String) : List String :=
  match findFirst (fun c => c = '.') s.data with
  | some i => [String.mk (s.data.take i), String.mk (s.data.drop (i + 1))]
  | none => [s]

/-- Python attribute call `u.split('.', 1)`: only strings have `split`;
anything else raises `AttributeError`. -/
def splitAttr (u : Val) : Except PyErr Val :=
  match u with
  | .vstr s => .ok (.vlist ((splitOnce s).map .vstr))
  | _ => .error .attributeError

/-- Body of the `try` block of `_reverse_search_options` for one
`(k, v)` entry of the search-options table, threading the partially mutated
`rev` dict out even when an exception is raised (Python side effects before
the raise persist):
`rev[v['uid']] = k; rev[v['uid'].split('.', 1)[1]] = k; rev[k] = k`. -/
def rsoStep (rev : PyDict) (k v : Val) : PyDict × Option PyErr :=
  match getItem v (.vstr "uid") with
  | .error e => (rev, some e)
  | .ok u =>
    match dictSetE rev u k with
    | .error e => (rev, some e)
    | .ok rev1 =>
      match splitAttr u with
      | .error e => (rev1, some e)
      | .ok parts =>
        match getItem parts (.vint 1) with
        | .error e => (rev1, some e)
        | .ok second =>
          match dictSetE rev1 second k with
          | .error e => (rev1, some e)
          | .ok rev2 =>
            match dictSetE rev2 k k with
            | .error e => (rev2, some e)
            | .ok rev3 => (rev3, none)

/-- Whether `except (KeyError, TypeError)` of `_reverse_search_options`
catches the exception. -/
def caught : PyErr → Bool
  | .keyError _ => true
  | .typeError => true
  | _ => false

/-- The `for k, v in search_options.items()` loop of
`_reverse_search_options`: caught exceptions skip to the next entry keeping
the mutations made so far; any other exception aborts the whole build. -/
def rsoFold : PyDict → PyDict → Except PyErr PyDict
  | [], rev => .ok rev
  | (k, v) :: rest, rev =>
    match rsoStep rev k v with
    | (rev', none) => rsoFold rest rev'
    | (rev', some e) => if caught e then rsoFold rest rev' else .error e

/-- Embedding of `_reverse_search_options` (src/pyglpi/__init__.py:88): build
the reverse map from a search-options table, starting from the empty dict. -/
def reverse_search_options (so : PyDict) : Except PyErr PyDict :=
  rsoFold so []

mutual
/-- Embedding of `_resolve_fields` (src/pyglpi/__init__.py:56).  The arms
spell out which exception the comprehension raises and the code catches:
a non-iterable raises `TypeError`; iterating a nonempty string or the keys
of a nonempty dict makes `it.items()` raise `AttributeError` (no Python dict
can have a dict as key, so dict keys never themselves have `items`); both
are caught, returning the input unchanged.  An empty dict iterates zero
times, so the comprehension returns the empty list. -/
def resolve_fields (criteria : Val) (rev : PyDict) : Except PyErr Val :=
  if criteria = .vstr "" then .ok criteria
  else
    match criteria with
    | .vlist xs =>
      match rfList xs rev with
      | .ok ys => .ok (.vlist ys)
      | .error .typeError => .ok (.vlist xs)
      | .error .attributeError => .ok (.vlist xs)
      | .error e => .error e
    | .vstr s => .ok (.vstr s)
    | .vdict [] => .ok (.vlist [])
    | .vdict ps => .ok (.vdict ps)
    | other => .ok other
/-- The list comprehension of `_resolve_fields`: each element must be a
dict (`it.items()` raises `AttributeError` otherwise), whose items are
rewritten in order. -/
def rfList (xs : List Val) (rev : PyDict) : Except PyErr (List Val)  :=
  match xs with
  | [] => .ok []
  | .vdict d :: rest =>
    match rfItems d rev with
    | .error e => .error e
    | .ok d' =>
      match rfList rest rev with
      | .error e => .error e
      | .ok rest' => .ok (.vdict d' :: rest')
  | _ :: _ => .error .attributeError
/-- The dict comprehension of `_resolve_fields`, with the body of
`_resolve_field` (src/pyglpi/__init__.py:37) inlined: under the key `field`
an int (or bool, which Python counts as int) is kept, anything else is
looked up in `rev`; under any other key the value is resolved recursively. -/
def rfItems (ps : List (Val × Val)) (rev : PyDict) : Except PyErr (List (Val × Val)) :=
  match ps with
  | [] => .ok []
  | (k, v) :: rest =>
    match
      (if k = .vstr "field" then
        match v with
        | .vint n => .ok (.vint n)
        | .vbool b => .ok (.vbool b)
        | _ => getItem (.vdict rev) v
      else resolve_fields v rev) with
    | .error e => .error e
    | .ok v' =>
      match rfItems rest rev with
      | .error e => .error e
      | .ok rest' => .ok ((k, v') :: rest')
end

/-- Embedding of `_resolve_field` (src/pyglpi/__init__.py:37) as a named
function; its body is inlined verbatim inside `rfItems`. -/
def resolve_field (k v : Val) (rev : PyDict) : Except PyErr Val :=
  if k = .vstr "field" then
    match v with
    | .vint n => .ok (.vint n)
    | .vbool b => .ok (.vbool b)
    | _ => getItem (.vdict rev) v
  else resolve_fields v rev

/-- Python `str()` on the values that can appear as query-string prefixes or
dict keys.  Container values are unhashable, hence never dict keys, and the
modelled pipeline only ever formats `None`, prefixes built from keys, and
indices, so the container arms are unreachable; they carry a marker. -/
def pyStr : Val → String
  | .vnull => "None"
  | .vbool true => "True"
  | .vbool false => "False"
  | .vint n => toString n
  | .vstr s => s
  | .vlist _ => "<list>"
  | .vdict _ => "<dict>"

/-- New prefix for a dict entry in `build_qs`:
`k if prefix is None else '%s[%s]' % (prefix, k)`. -/
def childKey (pfx k : Val) : Val :=
  match pfx with
  | .vnull => k
  | _ => .vstr (pyStr pfx ++ "[" ++ pyStr k ++ "]")

mutual
/-- Embedding of `build_qs` (src/pyglpi/__init__.py:108).  Strings are
scalars; dicts recurse per key with a bracketed prefix; lists recurse per
index; every other value makes `enumerate` raise `TypeError`, which the code
catches by yielding the single pair `(prefix, d)`. -/
def build_qs (d : Val) (pfx : Val) : List (Val × Val) :=
  match d with
  | .vstr s => [(pfx, .vstr s)]
  | .vdict ps => bqDict ps pfx
  | .vlist xs => bqList xs pfx 0
  | other => [(pfx, other)]
/-- Dict part of `build_qs`: recurse into each value in insertion order. -/
def bqDict (ps : List (Val × Val)) (pfx : Val) : List (Val × Val) :=
  match ps with
  | [] => []
  | (k, v) :: rest => build_qs v (childKey pfx k) ++ bqDict rest pfx
/-- List part of `build_qs`: recurse into each element with prefix
`'%s[%d]' % (prefix, i)`. -/
def bqList (xs : List Val) (pfx : Val) (i : Nat) : List (Val × Val) :=
  match xs with
  | [] => []
  | v :: rest =>
    build_qs v (.vstr (pyStr pfx ++ "[" ++ toString i ++ "]")) ++ bqList rest pfx (i + 1)
end

/-- Strip the leading dot-delimited segment, modelling
`re.compile(r'^[^\.]+\.').sub('', s)`: the anchored pattern matches exactly
when the first dot of `s` exists at a position `i > 0`, and the single
substitution removes the first `i + 1` characters. -/
def stripLeadSeg (s : String) : String :=
  match findFirst (fun c => c = '.') s.data with
  | some i => if 0 < i then String.mk (s.data.drop (i + 1)) else s
  | none => s

/-- One key of the output-relabeling comprehension of `search`
(src/pyglpi/__init__.py:160):
`prefix_re.sub('', search_options.get(k, {}).get('uid', k))`.
`dict.get` never raises on a hashable key; `re.sub` raises `TypeError` when
its final argument is not a string; `.get` on a non-dict table entry raises
`AttributeError`. -/
def relabelKey (so : PyDict) (k : Val) : Except PyErr Val :=
  if hashable k then
    match (dLookup so k).getD (.vdict []) with
    | .vdict d =>
      match (dLookup d (.vstr "uid")).getD k with
      | .vstr s => .ok (.vstr (stripLeadSeg s))
      | _ => .error .typeError
    | _ => .error .attributeError
  else .error .typeError

/-- The part of `search` (src/pyglpi/__init__.py:129) that runs before the
request to the search endpoint: build the reverse index, resolve the
criteria, flatten them under the prefix `'criteria'`.  An `.ok` result is
the criteria parameters of the request subsequently issued by
`glpi.search(itemtype).GET(params=params)`; an `.error` result means the
exception propagates to the caller and that request is never issued. -/
def searchParams (so : PyDict) (criteria : Val) : Except PyErr (List (Val × Val)) :=
  match reverse_search_options so with
  | .error e => .error e
  | .ok rev =>
    match resolve_fields criteria rev with
    | .error e => .error e
    | .ok criteria' => .ok (build_qs criteria' (.vstr "criteria"))

/-- Whether a list of characters is nonempty and all digits (the language of
`\d+`). -/
def digitsOnly (l : List Char) : Bool :=
  !l.isEmpty && l.all (fun c => c.isDigit)

/-- Numeric value of a digit string. -/
def natOf (l : List Char) : Nat :=
  l.foldl (fun acc c => acc * 10 + (c.toNat - '0'.toNat)) 0

/-- Parse of `re.match(r'^(?P<start>\d+)-(?P<end>\d+)/(?P<total>\d+)$', s)`
(src/pyglpi/__init__.py:264): the anchored pattern matches exactly when `s`
splits at its first `-` and the following first `/` into three nonempty
digit runs. -/
def parseCR (s : String) : Option (Int × Int × Int) :=
  let l := s.data
  match findFirst (fun c => c = '-') l with
  | none => none
  | some i =>
    let a := l.take i
    let rest := l.drop (i + 1)
    match findFirst (fun c => c = '/') rest with
    | none => none
    | some j =>
      let b := rest.take j
      let c := rest.drop (j + 1)
      if digitsOnly a && digitsOnly b && digitsOnly c then
        some ((natOf a : Int), (natOf b : Int), (natOf c : Int))
      else none

/-- Outcome of driving `_rangeiter` against a given list of follow-up
responses: `done` when the loop breaks (or never starts), `needMore` when
the walker issued a request for which the supplied response list has no
entry, `failed` when an exception escapes (missing `Content-Range` header
raises `KeyError`; a non-matching header makes `currange.group` raise
`AttributeError` on `None`).  `pages` counts yielded responses and `reqs`
lists the `range` parameters of the issued follow-up requests in order. -/
inductive RunResult where
  | done (pages : Nat) (reqs : List String)
  | needMore (pages : Nat) (reqs : List String)
  | failed (e : PyErr) (pages : Nat) (reqs : List String)
deriving DecidableEq

/-- The `while True` loop of `_rangeiter` (src/pyglpi/__init__.py:263).
`cr` is the `Content-Range` header of the response currently held (none if
the header is absent), `rest` the headers of the responses the transport
will return to the successive follow-up requests.  One iteration: parse the
header; stop when `end == total - 1`; otherwise infer the chunk length
(`self._range_length or end - start + 1`, where a configured 0 is falsy),
request `'{next}-{min(end + length, total)}'` and continue on the response. -/
def crLoop (rl : Option Int) (cr : Option String) (rest : List (Option String))
    (pages : Nat) (reqs : List String) : RunResult :=
  match cr with
  | none => .failed (.keyError (.vstr "Content-Range")) pages reqs
  | some s =>
    match parseCR s with
    | none => .failed .attributeError pages reqs
    | some (a, b, t) =>
      if b = t - 1 then .done pages reqs
      else
        let len : Int :=
          match rl with
          | some L => if L = 0 then b - a + 1 else L
          | none => b - a + 1
        let a' := b + 1
        let b' := b + len
        let req := toString a' ++ "-" ++ toString (min b' t)
        match rest with
        | [] => .needMore pages (reqs ++ [req])
        | cr' :: rest' => crLoop rl cr' rest' (pages + 1) (reqs ++ [req])

/-- Embedding of `GLPI._rangeiter` (src/pyglpi/__init__.py:254) driven by
the initial response and an oracle of follow-up responses.  `rl` is
`self._range_length`, `st` the initial response's status code, `q` the
parsed query of the originating request (`parse_qs` drops blank values, so
a key counts as present only with a nonempty value), `cr` the initial
`Content-Range` header, `fu` the headers of the responses to successive
follow-up requests.  The initial response is always yielded; a non-206
status or an explicit `range` query parameter stops after that single page. -/
def rangeiter (rl : Option Int) (st : Nat) (q : List (String × String))
    (cr : Option String) (fu : List (Option String)) : RunResult :=
  if st ≠ 206 then .done 1 []
  else if q.any (fun p => decide (p.1 = "range" ∧ p.2 ≠ "")) then .done 1 []
  else crLoop rl cr fu 1 []

/-- Extraction of `v['uid']` from a descriptor. -/
def uidGet (v : Val) : Except PyErr Val := getItem v (.vstr "uid")

/-- The unique identifier of a descriptor (junk `vnull` when extraction
fails; only used under `goodEntry`). -/
def uidVal (v : Val) : Val :=
  match uidGet v with
  | .ok u => u
  | .error _ => .vnull

/-- The identifier with its leading dot-delimited segment removed,
`uid.split('.', 1)[1]` (junk when there is no dot; only used under
`goodEntry`). -/
def sufOf (s : String) : String :=
  match findFirst (fun c => c = '.') s.data with
  | some i => String.mk (s.data.drop (i + 1))
  | none => s

/-- Suffix of a descriptor's identifier as a value. -/
def sufVal (v : Val) : Val :=
  match uidVal v with
  | .vstr s => .vstr (sufOf s)
  | u => u

/-- A well-formed search-options entry: hashable code and a string
identifier containing a dot, so all three `rev` assignments succeed. -/
def goodEntry (k v : Val) : Bool :=
  hashable k &&
    match uidGet v with
    | .ok (.vstr s) => (findFirst (fun c => c = '.') s.data).isSome
    | _ => false

/-- An entry that the `except (KeyError, TypeError)` clause skips before any
mutation: the identifier is missing, the descriptor is not subscriptable by
a string, or the identifier is unhashable. -/
def skipEntry (k v : Val) : Bool :=
  match uidGet v with
  | .error (.keyError _) => true
  | .error .typeError => true
  | .ok u => !hashable u
  | _ => false

/-- Whether a value is an int (a table code). -/
def isIntKey : Val → Bool
  | .vint _ => true
  | _ => false

/-- The dict keys written by the entries of a table, in write order: for
each entry its identifier, the identifier's suffix, and its code. -/
def wlist : PyDict → List Val
  | [] => []
  | (k, v) :: rest => uidVal v :: sufVal v :: k :: wlist rest

/-- Lookup after an assignment: the assigned key reads back the new value,
every other key is unaffected. -/
theorem dLookup_dictSet (d : PyDict) (k v x : Val) :
    dLookup (dictSet d k v) x = if x = k then some v else dLookup d x := by
  induction d with
  | nil =>
    by_cases h : x = k
    · simp [dictSet, dLookup, h]
    · simp [dictSet, dLookup, h, Ne.symm h]
  | cons p rest ih =>
    obtain ⟨a, b⟩ := p
    by_cases hak : a = k
    · subst hak
      by_cases hx : x = a
      · simp [dictSet, dLookup, hx]
      · simp [dictSet, dLookup, hx, Ne.symm hx]
    · by_cases hx : x = a
      · subst hx
        simp [dictSet, dLookup, hak, fun h : x = k => hak (h ▸ rfl)]
      · simp [dictSet, dLookup, hak, Ne.symm hx, ih]

/-- A skipped entry leaves `rev` untouched and raises a caught exception. -/
theorem rsoStep_skip (rev : PyDict) (k v : Val) (h : skipEntry k v = true) :
    ∃ e, rsoStep rev k v = (rev, some e) ∧ caught e = true := by
  unfold skipEntry at h
  cases hu : uidGet v with
  | error e =>
    rw [hu] at h
    simp only [uidGet] at hu
    cases e with
    | keyError c => exact ⟨.keyError c, by simp [rsoStep, hu], rfl⟩
    | typeError => exact ⟨.typeError, by simp [rsoStep, hu], rfl⟩
    | attributeError => simp at h
    | indexError => simp at h
  | ok u =>
    rw [hu] at h
    simp only [Bool.not_eq_true'] at h
    simp only [uidGet] at hu
    exact ⟨.typeError, by simp [rsoStep, hu, dictSetE, h], rfl⟩

/-- A good entry mutates `rev` by exactly its three assignments, in order,
and raises nothing. -/
theorem rsoStep_good (rev : PyDict) (k v : Val) (h : goodEntry k v = true) :
    rsoStep rev k v =
      (dictSet (dictSet (dictSet rev (uidVal v) k) (sufVal v) k) k k, none) := by
  unfold goodEntry at h
  rw [Bool.and_eq_true] at h
  obtain ⟨hk, hm⟩ := h
  cases hu : uidGet v with
  | error e => rw [hu] at hm; exact absurd hm (by simp)
  | ok u =>
    rw [hu] at hm
    cases u with
    | vstr s =>
      simp only [Option.isSome] at hm
      cases hf : findFirst (fun c => decide (c = '.')) s.data with
      | none => rw [hf] at hm; exact absurd hm (by simp)
      | some i =>
        have hsplit : splitOnce s =
            [String.mk (s.data.take i), String.mk (s.data.drop (i + 1))] := by
          unfold splitOnce
          rw [hf]
        have huv : uidVal v = .vstr s := by simp [uidVal, hu]
        have hsv : sufVal v = .vstr (sufOf s) := by simp [sufVal, huv]
        have hso : sufOf s = String.mk (s.data.drop (i + 1)) := by
          unfold sufOf
          rw [hf]
        simp only [uidGet] at hu
        rw [huv, hsv, hso]
        unfold rsoStep
        rw [hu]
        unfold hashable at hk
        simp [dictSetE, hashable, splitAttr, hsplit, getItem, hk]
    | vnull => exact absurd hm (by simp)
    | vbool b => exact absurd hm (by simp)
    | vint n => exact absurd hm (by simp)
    | vlist xs => exact absurd hm (by simp)
    | vdict ps => exact absurd hm (by simp)

/-- A good entry cannot also be a skipped one. -/
theorem skip_of_not_good (k v : Val) (h : skipEntry k v = true) :
    goodEntry k v = false := by
  unfold skipEntry at h
  unfold goodEntry
  cases hu : uidGet v with
  | error e => cases e <;> simp_all [hashable]
  | ok u => rw [hu] at h; cases u <;> simp_all [hashable]

/-- Folding a table of good-or-skipped entries never raises. -/
theorem rsoFold_ok (so : PyDict)
    (h : ∀ p ∈ so, goodEntry p.1 p.2 = true ∨ skipEntry p.1 p.2 = true) :
    ∀ rev, ∃ r, rsoFold so rev = .ok r := by
  induction so with
  | nil => exact fun rev => ⟨rev, rfl⟩
  | cons p rest ih =>
    intro rev
    obtain ⟨k, v⟩ := p
    rcases h (k, v) (by simp) with hg | hs
    · obtain ⟨r, hr⟩ := ih (fun q hq => h q (by simp [hq])) (dictSet (dictSet (dictSet rev (uidVal v) k) (sufVal v) k) k k)
      exact ⟨r, by simp [rsoFold, rsoStep_good rev k v hg, hr]⟩
    · obtain ⟨e, he, hc⟩ := rsoStep_skip rev k v hs
      obtain ⟨r, hr⟩ := ih (fun q hq => h q (by simp [hq])) rev
      exact ⟨r, by simp [rsoFold, he, hc, hr]⟩

/-- Skipped entries contribute nothing: the fold of a good-or-skipped table
equals the fold of its well-formed entries alone. -/
theorem rsoFold_filter (so : PyDict)
    (h : ∀ p ∈ so, goodEntry p.1 p.2 = true ∨ skipEntry p.1 p.2 = true) :
    ∀ rev, rsoFold so rev = rsoFold (so.filter fun p => goodEntry p.1 p.2) rev := by
  induction so with
  | nil => intro rev; rfl
  | cons p rest ih =>
    intro rev
    obtain ⟨k, v⟩ := p
    rcases h (k, v) (by simp) with hg | hs
    · simp [rsoFold, rsoStep_good rev k v hg, List.filter_cons, hg,
        ih (fun q hq => h q (by simp [hq]))]
    · obtain ⟨e, he, hc⟩ := rsoStep_skip rev k v hs
      simp [rsoFold, he, hc, List.filter_cons, skip_of_not_good k v hs,
        ih (fun q hq => h q (by simp [hq]))]

/-- Folding an appended table continues from the first part's result. -/
theorem rsoFold_append (l1 l2 : PyDict) : ∀ rev r, rsoFold l1 rev = .ok r →
    rsoFold (l1 ++ l2) rev = rsoFold l2 r := by
  induction l1 with
  | nil =>
    intro rev r h
    simp only [rsoFold, Except.ok.injEq] at h
    subst h
    rfl
  | cons p rest ih =>
    intro rev r h
    obtain ⟨k, v⟩ := p
    rw [List.cons_append]
    unfold rsoFold at h
    conv_lhs => unfold rsoFold
    cases hs : rsoStep rev k v with
    | mk rev' oe =>
      rw [hs] at h
      cases oe with
      | none => exact ih rev' r h
      | some e =>
        by_cases hc : caught e = true
        · simp only [hc, if_true] at h ⊢
          exact ih rev' r h
        · simp_all

/-- Keys not written by any entry of the table read back unchanged through
the fold. -/
theorem rsoFold_preserve (so : PyDict) (x : Val) :
    ∀ rev r, (∀ p ∈ so, goodEntry p.1 p.2 = true ∨ skipEntry p.1 p.2 = true) →
    (∀ p ∈ so, goodEntry p.1 p.2 = true →
      x ≠ uidVal p.2 ∧ x ≠ sufVal p.2 ∧ x ≠ p.1) →
    rsoFold so rev = .ok r → dLookup r x = dLookup rev x := by
  induction so with
  | nil =>
    intro rev r _ _ h
    simp only [rsoFold, Except.ok.injEq] at h
    subst h
    rfl
  | cons p rest ih =>
    intro rev r hH hW h
    obtain ⟨k, v⟩ := p
    rcases hH (k, v) (by simp) with hg | hs
    · unfold rsoFold at h
      rw [rsoStep_good rev k v hg] at h
      obtain ⟨h1, h2, h3⟩ := hW (k, v) (by simp) hg
      have hrec := ih _ r (fun q hq => hH q (by simp [hq]))
        (fun q hq => hW q (by simp [hq])) h
      rw [hrec]
      simp [dLookup_dictSet, h1, h2, h3]
    · obtain ⟨e, he, hc⟩ := rsoStep_skip rev k v hs
      unfold rsoFold at h
      rw [he] at h
      simp only [hc, if_true] at h
      exact ih rev r (fun q hq => hH q (by simp [hq]))
        (fun q hq => hW q (by simp [hq])) h

/-- A well-formed entry's identifier and suffix are strings. -/
theorem good_shape (k v : Val) (h : goodEntry k v = true) :
    ∃ s, uidVal v = .vstr s ∧ sufVal v = .vstr (sufOf s) := by
  unfold goodEntry at h
  rw [Bool.and_eq_true] at h
  obtain ⟨-, hm⟩ := h
  cases hu : uidGet v with
  | error e => rw [hu] at hm; exact absurd hm (by simp)
  | ok u =>
    rw [hu] at hm
    cases u with
    | vstr s =>
      have huv : uidVal v = .vstr s := by simp [uidVal, hu]
      exact ⟨s, huv, by simp [sufVal, huv]⟩
    | vnull => exact absurd hm (by simp)
    | vbool b => exact absurd hm (by simp)
    | vint n => exact absurd hm (by simp)
    | vlist xs => exact absurd hm (by simp)
    | vdict ps => exact absurd hm (by simp)

/-- The write list distributes over append. -/
theorem wlist_append (l1 l2 : PyDict) : wlist (l1 ++ l2) = wlist l1 ++ wlist l2 := by
  induction l1 with
  | nil => rfl
  | cons p rest ih => obtain ⟨k, v⟩ := p; simp [wlist, ih]

/-- Each entry's three write keys occur in the write list. -/
theorem mem_wlist (l : PyDict) (p : Val × Val) (h : p ∈ l) :
    uidVal p.2 ∈ wlist l ∧ sufVal p.2 ∈ wlist l ∧ p.1 ∈ wlist l := by
  induction l with
  | nil => cases h
  | cons q rest ih =>
    obtain ⟨k, v⟩ := q
    rcases List.mem_cons.1 h with rfl | hm
    · simp [wlist]
    · obtain ⟨h1, h2, h3⟩ := ih hm
      simp [wlist, h1, h2, h3]

/-- Claim C2, counterexample: reverse-index construction raises `IndexError`
on a descriptor whose identifier is a string without a dot separator
(`'name'.split('.', 1)[1]` fails and `IndexError` is not among the caught
exception classes), refuting the claim that construction never raises for
malformed identifiers. -/
theorem c2_counterexample :
    reverse_search_options [(.vint 1, .vdict [(.vstr "uid", .vstr "name")])] =
      .error .indexError := rfl

/-- Claim C2, amended: reverse-index construction never raises provided each
malformed entry fails identifier extraction with a key or type error
(missing field, non-subscriptable descriptor, unhashable identifier); such
entries contribute nothing and the result equals the build over the
well-formed entries alone.  (A string identifier without a dot instead
raises an uncaught `IndexError`.) -/
theorem c2_skip_malformed (so : PyDict)
    (h : ∀ p ∈ so, goodEntry p.1 p.2 = true ∨ skipEntry p.1 p.2 = true) :
    ∃ r, reverse_search_options so = .ok r ∧
      reverse_search_options (so.filter fun p => goodEntry p.1 p.2) = .ok r := by
  obtain ⟨r, hr⟩ := rsoFold_ok so h []
  refine ⟨r, hr, ?_⟩
  have := rsoFold_filter so h []
  rw [this] at hr
  exact hr

/-- Witness for C2's amended theorem at a table mixing one well-formed entry
with a missing-identifier entry and an unhashable-identifier entry. -/
theorem c2_witness :
    (∀ p ∈ ([(.vint 1, .vdict [(.vstr "uid", .vstr "Computer.name")]),
             (.vint 2, .vdict []),
             (.vint 3, .vdict [(.vstr "uid", .vlist [])])] : PyDict),
        goodEntry p.1 p.2 = true ∨ skipEntry p.1 p.2 = true) ∧
    (∃ r, reverse_search_options
            [(.vint 1, .vdict [(.vstr "uid", .vstr "Computer.name")]),
             (.vint 2, .vdict []),
             (.vint 3, .vdict [(.vstr "uid", .vlist [])])] = .ok r ∧
          reverse_search_options
            (([(.vint 1, .vdict [(.vstr "uid", .vstr "Computer.name")]),
             (.vint 2, .vdict []),
             (.vint 3, .vdict [(.vstr "uid", .vlist [])])] : PyDict).filter
              fun p => goodEntry p.1 p.2) = .ok r) :=
  ⟨by decide, c2_skip_malformed _ (by decide)⟩

/-- Claim C3, counterexample: for the one-entry table whose descriptor lacks
the identifier field, the built reverse-index is empty, so it does not
contain the identity mapping `1 → 1` — refuting the claim that the identity
entry is registered even when the identifier is missing (`rev[k] = k` sits
after the failing extraction inside the `try` block). -/
theorem c3_counterexample :
    reverse_search_options [(.vint 1, .vdict [])] = .ok [] ∧
    dLookup ([] : PyDict) (.vint 1) = none := ⟨rfl, rfl⟩

/-- Claim C3, amended: the reverse-index contains the identity mapping
`code → code` exactly for the entries with a well-formed identifier;
entries whose identifier is missing or fails extraction contribute no
identity mapping at all. -/
theorem c3_identity (so r : PyDict)
    (hH : ∀ p ∈ so, goodEntry p.1 p.2 = true ∨ skipEntry p.1 p.2 = true)
    (hik : ∀ p ∈ so, isIntKey p.1 = true)
    (hnd : (so.map Prod.fst).Nodup)
    (hok : reverse_search_options so = .ok r) :
    ∀ p ∈ so, (goodEntry p.1 p.2 = true → dLookup r p.1 = some p.1) ∧
      (skipEntry p.1 p.2 = true → dLookup r p.1 = none) := by
  intro p hp
  obtain ⟨k, v⟩ := p
  have hkint : isIntKey k = true := hik (k, v) hp
  have hknotstr : ∀ s : String, k ≠ .vstr s := by
    intro s he
    rw [he] at hkint
    simp [isIntKey] at hkint
  constructor
  · intro hg
    obtain ⟨l1, l2, hsplit⟩ := List.append_of_mem hp
    subst hsplit
    obtain ⟨r1, hr1⟩ := rsoFold_ok l1
      (fun q hq => hH q (by simp [hq])) []
    have happ := rsoFold_append l1 ((k, v) :: l2) [] r1 hr1
    rw [reverse_search_options] at hok
    rw [happ] at hok
    unfold rsoFold at hok
    rw [rsoStep_good r1 k v hg] at hok
    simp only [] at hok
    have hknd : k ∉ l2.map Prod.fst := by
      rw [List.map_append, List.map_cons] at hnd
      have := (List.nodup_append.1 hnd).2.1
      exact (List.nodup_cons.1 this).1
    have hpres := rsoFold_preserve l2 k _ r
      (fun q hq => hH q (by simp [hq]))
      (fun q hq hgq => by
        obtain ⟨su, hsu, hss⟩ := good_shape q.1 q.2 hgq
        refine ⟨by rw [hsu]; exact hknotstr su, by rw [hss]; exact hknotstr _, ?_⟩
        intro he
        exact hknd (he ▸ List.mem_map_of_mem Prod.fst hq))
      hok
    rw [hpres]
    simp [dLookup_dictSet]
  · intro hs
    have hpres := rsoFold_preserve so k [] r hH
      (fun q hq hgq => by
        obtain ⟨su, hsu, hss⟩ := good_shape q.1 q.2 hgq
        refine ⟨by rw [hsu]; exact hknotstr su, by rw [hss]; exact hknotstr _, ?_⟩
        intro he
        have hqp : q ≠ (k, v) := by
          intro he2
          rw [he2] at hgq
          rw [skip_of_not_good k v hs] at hgq
          exact absurd hgq (by simp)
        exact hqp (List.inj_on_of_nodup_map hnd hq hp he.symm))
      hok
    rw [hpres]
    rfl

/-- Witness for C3's amended theorem: in the table with one well-formed and
one identifier-less entry, code 1 has its identity mapping and code 2 does
not. -/
theorem c3_witness :
    dLookup [(.vstr "Computer.name", .vint 1), (.vstr "name", .vint 1),
      (.vint 1, .vint 1)] (.vint 1) = some (.vint 1) ∧
    dLookup [(.vstr "Computer.name", .vint 1), (.vstr "name", .vint 1),
      (.vint 1, .vint 1)] (.vint 2) = none :=
  ⟨(c3_identity
      [(.vint 1, .vdict [(.vstr "uid", .vstr "Computer.name")]),
       (.vint 2, .vdict [])]
      [(.vstr "Computer.name", .vint 1), (.vstr "name", .vint 1),
       (.vint 1, .vint 1)]
      (by decide) (by decide) (by decide) rfl
      (.vint 1, .vdict [(.vstr "uid", .vstr "Computer.name")])
      (by decide)).1 (by decide),
   (c3_identity
      [(.vint 1, .vdict [(.vstr "uid", .vstr "Computer.name")]),
       (.vint 2, .vdict [])]
      [(.vstr "Computer.name", .vint 1), (.vstr "name", .vint 1),
       (.vint 1, .vint 1)]
      (by decide) (by decide) (by decide) rfl
      (.vint 2, .vdict [])
      (by decide)).2 (by decide)⟩

/-- Claim C4, counterexample: with well-formed identifiers `b.c` (code 1)
and `A.b.c` (code 2), the suffix of the second entry overwrites the full
identifier of the first, so `"b.c"` maps to 2 instead of 1 — refuting the
claim for tables with colliding registered keys. -/
theorem c4_counterexample :
    reverse_search_options
        [(.vint 1, .vdict [(.vstr "uid", .vstr "b.c")]),
         (.vint 2, .vdict [(.vstr "uid", .vstr "A.b.c")])] =
      .ok [(.vstr "b.c", .vint 2), (.vstr "c", .vint 1), (.vint 1, .vint 1),
           (.vstr "A.b.c", .vint 2), (.vint 2, .vint 2)] ∧
    dLookup [(.vstr "b.c", .vint 2), (.vstr "c", .vint 1), (.vint 1, .vint 1),
           (.vstr "A.b.c", .vint 2), (.vint 2, .vint 2)] (.vstr "b.c") ≠
      some (.vint 1) :=
  ⟨rfl, by decide⟩

/-- Claim C4, amended: when every entry has a well-formed identifier and the
written keys (identifiers, suffixes and codes) are pairwise distinct, the
reverse-index maps each entry's full identifier, suffix and code to that
entry's code. -/
theorem c4_mappings (so r : PyDict)
    (hg : ∀ p ∈ so, goodEntry p.1 p.2 = true)
    (hnd : (wlist so).Nodup)
    (hok : reverse_search_options so = .ok r) :
    ∀ p ∈ so, dLookup r (uidVal p.2) = some p.1 ∧
      dLookup r (sufVal p.2) = some p.1 ∧ dLookup r p.1 = some p.1 := by
  intro p hp
  obtain ⟨k, v⟩ := p
  obtain ⟨l1, l2, hsplit⟩ := List.append_of_mem hp
  have hg0 : goodEntry k v = true := hg (k, v) hp
  subst hsplit
  obtain ⟨r1, hr1⟩ := rsoFold_ok l1 (fun q hq => .inl (hg q (by simp [hq]))) []
  have happ := rsoFold_append l1 ((k, v) :: l2) [] r1 hr1
  rw [reverse_search_options] at hok
  rw [happ] at hok
  unfold rsoFold at hok
  rw [rsoStep_good r1 k v hg0] at hok
  simp only [] at hok
  have hw : wlist (l1 ++ (k, v) :: l2) =
      wlist l1 ++ (uidVal v :: sufVal v :: k :: wlist l2) := by
    rw [wlist_append]
    rfl
  rw [hw] at hnd
  have hnd2 := (List.nodup_append.1 hnd).2.1
  rw [List.nodup_cons] at hnd2
  obtain ⟨hu_not, hnd3⟩ := hnd2
  rw [List.nodup_cons] at hnd3
  obtain ⟨hs_not, hnd4⟩ := hnd3
  rw [List.nodup_cons] at hnd4
  obtain ⟨hk_not, -⟩ := hnd4
  have hus : uidVal v ≠ sufVal v := fun he => hu_not (by simp [he])
  have huk : uidVal v ≠ k := fun he => hu_not (by simp [he])
  have hsk : sufVal v ≠ k := fun he => hs_not (by simp [he])
  have hu2 : uidVal v ∉ wlist l2 := fun hm => hu_not (by simp [hm])
  have hs2 : sufVal v ∉ wlist l2 := fun hm => hs_not (by simp [hm])
  have hk2 : k ∉ wlist l2 := fun hm => hk_not (by simp [hm])
  have hHrest : ∀ q ∈ l2, goodEntry q.1 q.2 = true ∨ skipEntry q.1 q.2 = true :=
    fun q hq => .inl (hg q (by simp [hq]))
  have pres : ∀ x, x ∉ wlist l2 → dLookup r x =
      dLookup (dictSet (dictSet (dictSet r1 (uidVal v) k) (sufVal v) k) k k) x := by
    intro x hx
    exact rsoFold_preserve l2 x _ r hHrest
      (fun q hq _ => by
        obtain ⟨m1, m2, m3⟩ := mem_wlist l2 q hq
        exact ⟨fun he => hx (he ▸ m1), fun he => hx (he ▸ m2),
          fun he => hx (he ▸ m3)⟩)
      hok
  refine ⟨?_, ?_, ?_⟩
  · rw [pres _ hu2]
    simp [dLookup_dictSet, huk, hus]
  · rw [pres _ hs2]
    simp [dLookup_dictSet, hsk]
  · rw [pres _ hk2]
    simp [dLookup_dictSet]

/-- Witness for C4's amended theorem at a two-entry table with pairwise
distinct identifiers, suffixes and codes. -/
theorem c4_witness :
    dLookup [(.vstr "Computer.name", .vint 1), (.vstr "name", .vint 1),
        (.vint 1, .vint 1), (.vstr "Software.version", .vint 2),
        (.vstr "version", .vint 2), (.vint 2, .vint 2)]
      (.vstr "Computer.name") = some (.vint 1) ∧
    dLookup [(.vstr "Computer.name", .vint 1), (.vstr "name", .vint 1),
        (.vint 1, .vint 1), (.vstr "Software.version", .vint 2),
        (.vstr "version", .vint 2), (.vint 2, .vint 2)]
      (.vstr "name") = some (.vint 1) ∧
    dLookup [(.vstr "Computer.name", .vint 1), (.vstr "name", .vint 1),
        (.vint 1, .vint 1), (.vstr "Software.version", .vint 2),
        (.vstr "version", .vint 2), (.vint 2, .vint 2)]
      (.vint 1) = some (.vint 1) :=
  c4_mappings
    [(.vint 1, .vdict [(.vstr "uid", .vstr "Computer.name")]),
     (.vint 2, .vdict [(.vstr "uid", .vstr "Software.version")])]
    [(.vstr "Computer.name", .vint 1), (.vstr "name", .vint 1),
     (.vint 1, .vint 1), (.vstr "Software.version", .vint 2),
     (.vstr "version", .vint 2), (.vint 2, .vint 2)]
    (by decide) (by decide) rfl
    (.vint 1, .vdict [(.vstr "uid", .vstr "Computer.name")]) (by decide)

/-- Claim C1, counterexample: driven by Content-Range values `0-49/120`,
`50-99/120`, `100-119/120` after an unranged initial request, the walker
yields 3 pages and issues 2 follow-ups, but the first follow-up's range is
`50-99` (the code computes `end + length = 49 + 50`), not `50-100` as the
claim states. -/
theorem c1_counterexample :
    rangeiter none 206 [] (some "0-49/120") [some "50-99/120", some "100-119/120"] =
      .done 3 ["50-99", "100-120"] ∧
    (RunResult.done 3 ["50-99", "100-120"] ≠ .done 3 ["50-100", "100-120"]) :=
  ⟨rfl, by decide⟩

/-- Claim C1, amended: with those responses the walker yields exactly 3
pages, terminates, and issues exactly 2 follow-up requests whose range
parameters are `50-99` and then `100-120` (the upper bound is
`min(end + length, total)`, so only the second request's bound is clamped
to the total; there is no boundary-compensation branch in the code). -/
theorem c1_pages_requests :
    rangeiter none 206 [] (some "0-49/120") [some "50-99/120", some "100-119/120"] =
      .done 3 ["50-99", "100-120"] := rfl

/-- Claim C10: the walker yields exactly one page and issues no follow-up
request when the initial response is not 206, and likewise when it is 206
but the originating request's query string already carried a (nonblank)
`range` parameter, regardless of any Content-Range contents. -/
theorem c10_short_circuit (rl : Option Int) (st : Nat) (q : List (String × String))
    (cr : Option String) (fu : List (Option String)) :
    (st ≠ 206 → rangeiter rl st q cr fu = .done 1 []) ∧
    ((∃ v, ("range", v) ∈ q ∧ v ≠ "") → rangeiter rl 206 q cr fu = .done 1 []) := by
  constructor
  · intro h
    simp [rangeiter, h]
  · rintro ⟨v, hm, hv⟩
    have hq : q.any (fun p => decide (p.1 = "range" ∧ p.2 ≠ "")) = true :=
      List.any_eq_true.mpr ⟨("range", v), hm, by simp [hv]⟩
    unfold rangeiter
    rw [if_neg (by simp), if_pos hq]

/-- Witness for C10 at a 200 response and at a 206 response whose request
carried `range=0-10`. -/
theorem c10_witness :
    rangeiter none 200 [] (some "0-49/120") [] = .done 1 [] ∧
    rangeiter (some 10) 206 [("range", "0-10")] (some "0-9/50") [] = .done 1 [] :=
  ⟨(c10_short_circuit none 200 [] (some "0-49/120") []).1 (by decide),
   (c10_short_circuit (some 10) 206 [("range", "0-10")] (some "0-9/50") []).2
     ⟨"0-10", by decide, by decide⟩⟩

/-- Claim C5: resolving `[{'field': 'name', 'value': 'x'}]` against the
reverse index of `{1: {'uid': 'Computer.name'}}` yields
`[{'field': 1, 'value': 'x'}]`: the field name becomes its code, the other
property passes through unchanged, and an already-numeric field value is
always kept as-is. -/
theorem c5_resolution :
    reverse_search_options [(.vint 1, .vdict [(.vstr "uid", .vstr "Computer.name")])] =
      .ok [(.vstr "Computer.name", .vint 1), (.vstr "name", .vint 1),
        (.vint 1, .vint 1)] ∧
    resolve_fields
        (.vlist [.vdict [(.vstr "field", .vstr "name"), (.vstr "value", .vstr "x")]])
        [(.vstr "Computer.name", .vint 1), (.vstr "name", .vint 1),
          (.vint 1, .vint 1)] =
      .ok (.vlist [.vdict [(.vstr "field", .vint 1), (.vstr "value", .vstr "x")]]) ∧
    ∀ (rev : PyDict) (n : Int),
      resolve_field (.vstr "field") (.vint n) rev = .ok (.vint n) :=
  ⟨rfl, rfl, fun _ _ => rfl⟩

/-- Claim C8: encoding `{'arr': {'foo': 'bar', 'key': ['a', 'b']}}` yields
exactly `('arr[foo]', 'bar')`, `('arr[key][0]', 'a')`, `('arr[key][1]', 'b')`
in that order. -/
theorem c8_encode :
    build_qs (.vdict [(.vstr "arr", .vdict [(.vstr "foo", .vstr "bar"),
        (.vstr "key", .vlist [.vstr "a", .vstr "b"])])]) .vnull =
      [(.vstr "arr[foo]", .vstr "bar"), (.vstr "arr[key][0]", .vstr "a"),
       (.vstr "arr[key][1]", .vstr "b")] := rfl

/-- Claim C9: the query encoder is total (the Lean embedding is a total
function with no error channel: the only exception the Python code can meet,
`enumerate` raising `TypeError` on a non-iterable, is caught) and any input
that is neither a string nor a mapping nor a sequence is emitted as the
single pair `(prefix, value)`. -/
theorem c9_scalar_fallback (pfx : Val) :
    build_qs .vnull pfx = [(pfx, .vnull)] ∧
    (∀ b, build_qs (.vbool b) pfx = [(pfx, .vbool b)]) ∧
    (∀ n, build_qs (.vint n) pfx = [(pfx, .vint n)]) :=
  ⟨rfl, fun _ => rfl, fun _ => rfl⟩

/-- If no character matches, there is no first match. -/
theorem findFirst_eq_none (p : Char → Bool) (l : List Char)
    (h : ∀ c ∈ l, p c = false) : findFirst p l = none := by
  induction l with
  | nil => rfl
  | cons a l ih =>
    simp [findFirst, h a (by simp), ih (fun c hc => h c (by simp [hc]))]

/-- The first match after an unmatched block sits right behind it. -/
theorem findFirst_append (p : Char → Bool) (t u : List Char) (a : Char)
    (ht : ∀ c ∈ t, p c = false) (ha : p a = true) :
    findFirst p (t ++ a :: u) = some t.length := by
  induction t with
  | nil => simp [findFirst, ha]
  | cons c t ih =>
    simp [findFirst, ht c (by simp), ih (fun d hd => ht d (by simp [hd]))]

/-- Dropping past a block and one separator leaves the tail. -/
theorem drop_len_succ (t u : List Char) (a : Char) :
    (t ++ a :: u).drop (t.length + 1) = u := by
  induction t with
  | nil => rfl
  | cons c t ih =>
    simpa only [List.length_cons, List.cons_append, List.drop_succ_cons] using ih

/-- A string without a dot is left unchanged by the anchored substitution. -/
theorem stripLeadSeg_no_dot (s : String) (h : '.' ∉ s.data) :
    stripLeadSeg s = s := by
  unfold stripLeadSeg
  rw [findFirst_eq_none _ _ (fun c hc => by
    simp only [decide_eq_false_iff_not]
    exact fun he => h (he ▸ hc))]

/-- A string of the shape `t.u` with `t` nonempty and dot-free loses exactly
its leading segment and the dot. -/
theorem stripLeadSeg_strip (s : String) (t u : List Char)
    (hs : s.data = t ++ '.' :: u) (ht : '.' ∉ t) (htn : t ≠ []) :
    stripLeadSeg s = String.mk u := by
  unfold stripLeadSeg
  rw [hs, findFirst_append _ t u '.'
    (fun c hc => by
      simp only [decide_eq_false_iff_not]
      exact fun he => ht (he ▸ hc)) (by simp)]
  show (if 0 < t.length then String.mk (List.drop (t.length + 1) (t ++ '.' :: u))
    else s) = String.mk u
  rw [if_pos (List.length_pos.2 htn), drop_len_succ]

/-- Claim C7, counterexample: the unknown key `Foo.bar` (absent from the
empty schema table) is relabeled to `bar`, not passed through unchanged:
the fallback key is still run through the prefix-stripping substitution. -/
theorem c7_counterexample :
    relabelKey [] (.vstr "Foo.bar") = .ok (.vstr "bar") ∧
    (Val.vstr "bar") ≠ .vstr "Foo.bar" := ⟨rfl, by decide⟩

/-- Claim C7, amended: a key with no entry in the schema table passes
through the relabeling with its leading dot-delimited segment stripped:
a key without a dot is unchanged, and a key of the shape `t.u` (first
segment nonempty and dot-free) becomes `u`. -/
theorem c7_unknown_key (so : PyDict) (s : String)
    (h : dLookup so (.vstr s) = none) :
    relabelKey so (.vstr s) = .ok (.vstr (stripLeadSeg s)) ∧
    ('.' ∉ s.data → relabelKey so (.vstr s) = .ok (.vstr s)) ∧
    (∀ t u : List Char, s.data = t ++ '.' :: u → '.' ∉ t → t ≠ [] →
      relabelKey so (.vstr s) = .ok (.vstr (String.mk u))) := by
  have h1 : relabelKey so (.vstr s) = .ok (.vstr (stripLeadSeg s)) := by
    simp [relabelKey, hashable, h, dLookup]
  refine ⟨h1, fun hnd => ?_, fun t u hs ht htn => ?_⟩
  · rw [h1, stripLeadSeg_no_dot s hnd]
  · rw [h1, stripLeadSeg_strip s t u hs ht htn]

/-- Witness for C7's amended theorem: the dot-free unknown key `ab` passes
through unchanged. -/
theorem c7_witness :
    relabelKey [] (.vstr "ab") = .ok (.vstr (stripLeadSeg "ab")) ∧
    relabelKey [] (.vstr "ab") = .ok (.vstr "ab") :=
  ⟨(c7_unknown_key [] "ab" rfl).1, (c7_unknown_key [] "ab" rfl).2.1 (by decide)⟩

/-- Subscripting a dict only raises key or type errors. -/
theorem getItem_vdict_err (d : PyDict) (k : Val) (e : PyErr)
    (h : getItem (.vdict d) k = .error e) :
    (∃ x, e = .keyError x) ∨ e = .typeError := by
  have hg : getItem (.vdict d) k =
      (if hashable k = true then
        match dLookup d k with
        | some v => .ok v
        | none => .error (.keyError k)
      else .error .typeError) := rfl
  rw [hg] at h
  by_cases hk : hashable k = true
  · rw [if_pos hk] at h
    cases hl : dLookup d k with
    | some v => rw [hl] at h; exact Except.noConfusion h
    | none =>
      rw [hl] at h
      exact .inl ⟨k, (Except.error.inj h).symm⟩
  · rw [if_neg hk] at h
    exact .inr (Except.error.inj h).symm

/-- Arm equation: a string criteria value is returned unchanged (the empty
string by the sentinel check, any other because its characters lack
`items`, a caught `AttributeError`). -/
theorem resolve_fields_vstr (s : String) (rev : PyDict) :
    resolve_fields (.vstr s) rev = .ok (.vstr s) := by
  unfold resolve_fields
  split <;> rfl

/-- Arm equation: on a list the comprehension runs; caught type and
attribute errors return the input unchanged, anything else propagates. -/
theorem resolve_fields_vlist (xs : List Val) (rev : PyDict) :
    resolve_fields (.vlist xs) rev =
      match rfList xs rev with
      | .ok ys => .ok (.vlist ys)
      | .error .typeError => .ok (.vlist xs)
      | .error .attributeError => .ok (.vlist xs)
      | .error e => .error e := rfl

/-- Arm equation: one comprehension element headed by a dict entry, phrased
through the named `resolve_field` (whose body is inlined in `rfItems`). -/
theorem rfItems_cons (k v : Val) (rest : List (Val × Val)) (rev : PyDict) :
    rfItems ((k, v) :: rest) rev =
      match resolve_field k v rev with
      | .error e => .error e
      | .ok v' =>
        match rfItems rest rev with
        | .error e => .error e
        | .ok rest' => .ok ((k, v') :: rest') := rfl

/-- Arm equation: one list element that is a dict. -/
theorem rfList_cons_vdict (d : List (Val × Val)) (rest : List Val) (rev : PyDict) :
    rfList (.vdict d :: rest) rev =
      match rfItems d rev with
      | .error e => .error e
      | .ok d' =>
        match rfList rest rev with
        | .error e => .error e
        | .ok rest' => .ok (.vdict d' :: rest') := rfl

/-- Exceptions escaping `resolve_field` are key errors (absent field name)
or type errors (unhashable field value), given that the recursive call only
lets key errors out. -/
theorem resolve_field_err (k v : Val) (rev : PyDict) (e : PyErr)
    (hrf : ∀ e2, resolve_fields v rev = .error e2 → ∃ x, e2 = .keyError x)
    (h : resolve_field k v rev = .error e) :
    (∃ x, e = .keyError x) ∨ e = .typeError := by
  unfold resolve_field at h
  by_cases hf : k = .vstr "field"
  · rw [if_pos hf] at h
    cases v with
    | vint n => exact Except.noConfusion h
    | vbool b => exact Except.noConfusion h
    | vnull => exact getItem_vdict_err rev _ e h
    | vstr s => exact getItem_vdict_err rev _ e h
    | vlist xs => exact getItem_vdict_err rev _ e h
    | vdict ps => exact getItem_vdict_err rev _ e h
  · rw [if_neg hf] at h
    exact .inl (hrf e h)

/-- Classification of escaping exceptions: `resolve_fields` only lets a
`KeyError` out (its `except (TypeError, AttributeError)` catches the other
two classes raised by its own comprehension); `rfItems` lets out key or
type errors, `rfList` additionally the attribute error of a non-dict
element. -/
theorem resolve_fields_err_class : ∀ c : Val,
    (∀ rev e, resolve_fields c rev = .error e → ∃ x, e = .keyError x) ∧
    (∀ d, c = .vdict d → ∀ rev e, rfItems d rev = .error e →
      (∃ x, e = .keyError x) ∨ e = .typeError) := by
  refine valInd _
    (fun xs => ∀ rev e, rfList xs rev = .error e →
      (∃ x, e = .keyError x) ∨ e = .typeError ∨ e = .attributeError)
    (fun ps => ∀ rev e, rfItems ps rev = .error e →
      (∃ x, e = .keyError x) ∨ e = .typeError)
    ?_ ?_ ?_ ?_ ?_ ?_ ?_ ?_ ?_ ?_
  · exact ⟨fun rev e h => Except.noConfusion h, fun d hd => Val.noConfusion hd⟩
  · exact fun b =>
      ⟨fun rev e h => Except.noConfusion h, fun d hd => Val.noConfusion hd⟩
  · exact fun n =>
      ⟨fun rev e h => Except.noConfusion h, fun d hd => Val.noConfusion hd⟩
  · exact fun s =>
      ⟨fun rev e h => by rw [resolve_fields_vstr] at h; exact Except.noConfusion h,
       fun d hd => Val.noConfusion hd⟩
  · intro xs ih
    refine ⟨fun rev e h => ?_, fun d hd => Val.noConfusion hd⟩
    rw [resolve_fields_vlist] at h
    cases hr : rfList xs rev with
    | ok ys => rw [hr] at h; exact Except.noConfusion h
    | error e2 =>
      rw [hr] at h
      rcases ih rev e2 hr with ⟨x, rfl⟩ | rfl | rfl
      · exact ⟨x, (Except.error.inj h).symm⟩
      · exact Except.noConfusion h
      · exact Except.noConfusion h
  · intro ps qp
    refine ⟨fun rev e h => ?_, fun d hd => ?_⟩
    · cases ps with
      | nil => exact Except.noConfusion h
      | cons p ps2 => exact Except.noConfusion h
    · obtain rfl := Val.vdict.inj hd
      exact qp
  · exact fun rev e h => Except.noConfusion h
  · intro x xs px ih rev e h
    cases x with
    | vdict d =>
      rw [rfList_cons_vdict] at h
      cases hri : rfItems d rev with
      | error e1 =>
        rw [hri] at h
        obtain rfl := (Except.error.inj h).symm
        rcases px.2 d rfl rev e hri with hk | rfl
        · exact .inl hk
        · exact .inr (.inl rfl)
      | ok d' =>
        rw [hri] at h
        cases hrl : rfList xs rev with
        | error e2 =>
          rw [hrl] at h
          obtain rfl := (Except.error.inj h).symm
          exact ih rev e hrl
        | ok rest2 => rw [hrl] at h; exact Except.noConfusion h
    | vnull => exact .inr (.inr (Except.error.inj h).symm)
    | vbool b => exact .inr (.inr (Except.error.inj h).symm)
    | vint n => exact .inr (.inr (Except.error.inj h).symm)
    | vstr s => exact .inr (.inr (Except.error.inj h).symm)
    | vlist ys => exact .inr (.inr (Except.error.inj h).symm)
  · exact fun rev e h => Except.noConfusion h
  · intro k v ps pk pv ih rev e h
    rw [rfItems_cons] at h
    cases hrf : resolve_field k v rev with
    | error e1 =>
      rw [hrf] at h
      obtain rfl := (Except.error.inj h).symm
      exact resolve_field_err k v rev e (fun e2 h2 => pv.1 rev e2 h2) hrf
    | ok v2 =>
      rw [hrf] at h
      cases hrt : rfItems ps rev with
      | error e2 =>
        rw [hrt] at h
        obtain rfl := (Except.error.inj h).symm
        exact ih rev e hrt
      | ok rest2 => rw [hrt] at h; exact Except.noConfusion h

/-- The shape the data model allows for values under the key `field`: a
numeric code (int, or bool which Python counts as int) or a name string. -/
def fieldShape : Val → Bool
  | .vint _ => true
  | .vbool _ => true
  | .vstr _ => true
  | _ => false

/-- Whether a value is a string missing from the reverse index. -/
def strAbsent (rev : PyDict) : Val → Bool
  | .vstr s => (dLookup rev (.vstr s)).isNone
  | _ => false

/-- Under the field-shape constraint, `rfItems` only lets key errors out:
int and bool field values cannot fail, string field values fail only with
the lookup's `KeyError`, and other keys recurse through `resolve_fields`,
which only lets key errors out. -/
theorem rfItems_shape_err (rev : PyDict) :
    ∀ d : List (Val × Val),
    (∀ p ∈ d, p.1 = .vstr "field" → fieldShape p.2 = true) →
    ∀ e, rfItems d rev = .error e → ∃ x, e = .keyError x := by
  intro d
  induction d with
  | nil => exact fun _ e h => Except.noConfusion h
  | cons q rest ih =>
    intro hsh e h
    obtain ⟨k, v⟩ := q
    rw [rfItems_cons] at h
    cases hrf : resolve_field k v rev with
    | error e1 =>
      rw [hrf] at h
      obtain rfl := (Except.error.inj h).symm
      unfold resolve_field at hrf
      by_cases hf : k = .vstr "field"
      · rw [if_pos hf] at hrf
        have hshape : fieldShape v = true := hsh (k, v) (by simp) hf
        cases v with
        | vint n => exact Except.noConfusion hrf
        | vbool b => exact Except.noConfusion hrf
        | vstr s =>
          have hg : getItem (.vdict rev) (.vstr s) =
              (match dLookup rev (.vstr s) with
              | some w => .ok w
              | none => .error (.keyError (.vstr s))) := rfl
          rw [hg] at hrf
          cases hl : dLookup rev (.vstr s) with
          | some w => rw [hl] at hrf; exact Except.noConfusion hrf
          | none =>
            rw [hl] at hrf
            exact ⟨.vstr s, (Except.error.inj hrf).symm⟩
        | vnull => exact absurd hshape (by simp [fieldShape])
        | vlist xs => exact absurd hshape (by simp [fieldShape])
        | vdict ps => exact absurd hshape (by simp [fieldShape])
      · rw [if_neg hf] at hrf
        exact (resolve_fields_err_class v).1 rev e hrf
    | ok v2 =>
      rw [hrf] at h
      cases hrt : rfItems rest rev with
      | error e2 =>
        rw [hrt] at h
        obtain rfl := (Except.error.inj h).symm
        exact ih (fun p hp => hsh p (by simp [hp])) e hrt
      | ok rest2 => rw [hrt] at h; exact Except.noConfusion h

/-- A well-shaped criterion dict containing a `field` name absent from the
reverse index makes `rfItems` fail with a `KeyError`. -/
theorem rfItems_bad (rev : PyDict) :
    ∀ d : List (Val × Val),
    (∀ p ∈ d, p.1 = .vstr "field" → fieldShape p.2 = true) →
    (∃ p ∈ d, p.1 = .vstr "field" ∧ strAbsent rev p.2 = true) →
    ∃ x, rfItems d rev = .error (.keyError x) := by
  intro d
  induction d with
  | nil => rintro _ ⟨p, hp, -⟩; cases hp
  | cons q rest ih =>
    rintro hsh ⟨p, hp, hpf, hpa⟩
    obtain ⟨k, v⟩ := q
    rcases List.mem_cons.1 hp with heq | hpr
    · subst heq
      have hk : k = .vstr "field" := hpf
      subst hk
      cases v with
      | vstr s =>
        have habs : dLookup rev (.vstr s) = none := by
          simpa [strAbsent, Option.isNone_iff_eq_none] using hpa
        refine ⟨.vstr s, ?_⟩
        rw [rfItems_cons]
        have hrf : resolve_field (.vstr "field") (.vstr s) rev =
            .error (.keyError (.vstr s)) := by
          have hg : resolve_field (.vstr "field") (.vstr s) rev =
              (match dLookup rev (.vstr s) with
              | some w => Except.ok w
              | none => Except.error (.keyError (.vstr s))) := rfl
          rw [hg, habs]
        rw [hrf]
      | vnull => exact absurd hpa (by simp [strAbsent])
      | vbool b => exact absurd hpa (by simp [strAbsent])
      | vint n => exact absurd hpa (by simp [strAbsent])
      | vlist xs => exact absurd hpa (by simp [strAbsent])
      | vdict ps => exact absurd hpa (by simp [strAbsent])
    · rw [rfItems_cons]
      cases hrf : resolve_field k v rev with
      | error e1 =>
        obtain ⟨x, rfl⟩ := rfItems_shape_err rev ((k, v) :: rest) hsh e1
          (by rw [rfItems_cons, hrf])
        exact ⟨x, rfl⟩
      | ok v2 =>
        obtain ⟨x, hx⟩ := ih (fun p2 hp2 => hsh p2 (by simp [hp2])) ⟨p, hpr, hpf, hpa⟩
        rw [hx]
        exact ⟨x, rfl⟩

/-- A well-shaped criteria list containing a criterion whose `field` name is
absent from the reverse index makes the comprehension fail with a
`KeyError`. -/
theorem rfList_bad (rev : PyDict) :
    ∀ l : List Val,
    (∀ it ∈ l, ∃ d, it = .vdict d ∧
      ∀ p ∈ d, p.1 = .vstr "field" → fieldShape p.2 = true) →
    (∃ it ∈ l, ∃ d, it = .vdict d ∧
      ∃ p ∈ d, p.1 = .vstr "field" ∧ strAbsent rev p.2 = true) →
    ∃ x, rfList l rev = .error (.keyError x) := by
  intro l
  induction l with
  | nil => rintro _ ⟨it, hit, -⟩; cases hit
  | cons y rest ih =>
    rintro hsh ⟨it, hit, d0, hitd, hbadp⟩
    obtain ⟨dh, hyd, hdh⟩ := hsh y (by simp)
    subst hyd
    rw [rfList_cons_vdict]
    cases hri : rfItems dh rev with
    | error e1 =>
      obtain ⟨x, rfl⟩ := rfItems_shape_err rev dh hdh e1 hri
      exact ⟨x, rfl⟩
    | ok d2 =>
      rcases List.mem_cons.1 hit with heq | hitr
      · exfalso
        subst heq
        obtain rfl := Val.vdict.inj hitd
        obtain ⟨x, hx⟩ := rfItems_bad rev dh hdh hbadp
        rw [hri] at hx
        exact Except.noConfusion hx
      · obtain ⟨x, hx⟩ := ih (fun it2 h2 => hsh it2 (by simp [h2]))
          ⟨it, hitr, d0, hitd, hbadp⟩
        rw [hx]
        exact ⟨x, rfl⟩

/-- Claim C6: for a criteria list of well-shaped criterion dicts containing
one whose `field` value is a non-numeric name absent from the schema's
reverse index, the search pipeline fails with the unknown-field error (the
`KeyError` of the reverse-index lookup), and — since an `.ok` result of
`searchParams` is exactly the parameter set of the request subsequently
issued to the search endpoint — that request is never issued. -/
theorem c6_unknown_field (so rev : PyDict) (l : List Val)
    (hrev : reverse_search_options so = .ok rev)
    (hsh : ∀ it ∈ l, ∃ d, it = .vdict d ∧
      ∀ p ∈ d, p.1 = .vstr "field" → fieldShape p.2 = true)
    (hbad : ∃ it ∈ l, ∃ d, it = .vdict d ∧
      ∃ p ∈ d, p.1 = .vstr "field" ∧ strAbsent rev p.2 = true) :
    ∃ x, searchParams so (.vlist l) = .error (.keyError x) := by
  obtain ⟨x, hx⟩ := rfList_bad rev l hsh hbad
  refine ⟨x, ?_⟩
  unfold searchParams
  rw [hrev]
  show (match resolve_fields (.vlist l) rev with
    | .error e => (.error e : Except PyErr (List (Val × Val)))
    | .ok criteria2 => .ok (build_qs criteria2 (.vstr "criteria"))) =
    .error (.keyError x)
  have hres : resolve_fields (.vlist l) rev = .error (.keyError x) := by
    rw [resolve_fields_vlist, hx]
  rw [hres]

/-- Witness for C6: searching `[{'field': 'unknown_field', 'value': 1}]`
against the schema `{1: {'uid': 'Computer.name'}}` fails with a `KeyError`
before the search request is formed. -/
theorem c6_witness :
    ∃ x, searchParams [(.vint 1, .vdict [(.vstr "uid", .vstr "Computer.name")])]
      (.vlist [.vdict [(.vstr "field", .vstr "unknown_field"),
        (.vstr "value", .vint 1)]]) = .error (.keyError x) :=
  c6_unknown_field
    [(.vint 1, .vdict [(.vstr "uid", .vstr "Computer.name")])]
    [(.vstr "Computer.name", .vint 1), (.vstr "name", .vint 1),
     (.vint 1, .vint 1)]
    [.vdict [(.vstr "field", .vstr "unknown_field"), (.vstr "value", .vint 1)]]
    rfl
    (fun it hit => by
      rw [List.mem_singleton] at hit
      subst hit
      exact ⟨_, rfl, by decide⟩)
    ⟨.vdict [(.vstr "field", .vstr "unknown_field"), (.vstr "value", .vint 1)],
     by simp,
     [(.vstr "field", .vstr "unknown_field"), (.vstr "value", .vint 1)],
     rfl,
     (.vstr "field", .vstr "unknown_field"),
     by simp,
     rfl,
     by decide⟩
